import Mathlib

/-!
Verification of the Big Brother Stockwatch advisor
(`src/stockwatch_advisor.py`) against its specification.

All money and projection values are modelled as exact rationals (`ℚ`);
the script's Python floats are the inexact counterpart of these values.
The ILP construction (lines 40-54 of the source) is embedded directly;
`scipy.optimize.linprog` is an external collaborator and is modelled
from the spec's black-box contract.
-/

/-- One houseguest record from the YAML input: a `name`, a per-stock
`cost` and a non-empty list of `projections` (source lines 45-49). -/
structure Houseguest where
  name : String
  cost : ℚ
  projections : List ℚ
deriving DecidableEq

/-- Arithmetic mean, as `statistics.mean` on line 46 of the source. -/
def mean (l : List ℚ) : ℚ := l.sum / l.length

/-- The ILP handed to the solver: objective `c`, the single equality row
`row` (= `A_eq[0]`), target `b` (= `b_eq[0]`), per-variable `bounds` and
`integrality` flags (source lines 40-54). -/
structure Ilp where
  c : List ℚ
  row : List ℚ
  b : ℚ
  bounds : List (ℚ × Option ℚ)
  integrality : List ℕ
deriving DecidableEq

/-- The `for houseguest in houseguests` loop of lines 45-49: appends the
negated mean projection to `c`, the cost to `A_eq[0]`, a `(0, None)`
bound and an integrality flag `1` per houseguest. -/
def buildLoop : List Houseguest → Ilp → Ilp
  | [], p => p
  | h :: t, p =>
      buildLoop t
        { p with
          c := p.c ++ [-(mean h.projections)]
          row := p.row ++ [h.cost]
          bounds := p.bounds ++ [((0 : ℚ), none)]
          integrality := p.integrality ++ [1] }

/-- Lines 40-54 of the source: start from the empty problem with
`b_eq = [net_worth]`, run the houseguest loop, then append the cash
pseudo-asset entries `-0.01` / `0.01` / `(0, None)` / `1`. -/
def buildIlp (net_worth : ℚ) (hgs : List Houseguest) : Ilp :=
  let p := buildLoop hgs { c := [], row := [], b := net_worth, bounds := [], integrality := [] }
  { p with
    c := p.c ++ [-(1 / 100)]
    row := p.row ++ [1 / 100]
    bounds := p.bounds ++ [((0 : ℚ), none)]
    integrality := p.integrality ++ [1] }

/-- The per-houseguest cost column of the equality row. -/
def costsOf (hgs : List Houseguest) : List ℚ := hgs.map (fun h => h.cost)

/-- The per-houseguest mean projections (the negations of the stock
entries of `c`). -/
def projsOf (hgs : List Houseguest) : List ℚ :=
  hgs.map (fun h => mean h.projections)

/-- Spend of a stock vector against the cost column:
`Σ cost_i * x_i` over the zipped lists. -/
def dotProd (cs : List ℚ) (xs : List ℕ) : ℚ :=
  (List.zipWith (fun (c : ℚ) (k : ℕ) => c * (k : ℚ)) cs xs).sum

/-- All stock vectors whose spend can fit inside `budget` when every
cost is positive: the `i`-th entry ranges over
`0, ..., ⌊remaining / cost_i⌋`. Enumeration device for the solver
model below. -/
def stockCandidates : List ℚ → ℚ → List (List ℕ)
  | [], _ => [[]]
  | c :: rest, budget =>
      (List.range ((Rat.floor (budget / c)).toNat + 1)).flatMap fun k =>
        (stockCandidates rest (budget - (k : ℚ) * c)).map fun xs => k :: xs

/-- The number of one-cent cash units that exactly closes the gap
between `budget` and a spend `s`, when that gap is a non-negative whole
number of cents; `none` otherwise. -/
def cashFor (budget s : ℚ) : Option ℕ :=
  if 0 ≤ (budget - s) * 100 ∧ ((budget - s) * 100).den = 1 then
    some ((budget - s) * 100).num.toNat
  else none

/-- Every feasible point of the ILP (for positive costs): a stock
vector together with the cash units making the equality row exact. -/
def feasiblePoints (cs : List ℚ) (budget : ℚ) : List (List ℕ × ℕ) :=
  (stockCandidates cs budget).filterMap fun xs =>
    (cashFor budget (dotProd cs xs)).map fun m => (xs, m)

/-- True expected value of an allocation: `Σ projection_i * x_i` plus
`0.01` per cash unit. The solver minimises `c @ x`, whose value is the
negation of this (source comment lines 11-16); the script reports
`-res.fun`, i.e. this quantity. -/
def objValue (ps : List ℚ) (xs : List ℕ) (cash : ℕ) : ℚ :=
  dotProd ps xs + (cash : ℚ) * (1 / 100)

/-- Modelled from the spec: `scipy.optimize.linprog(c, A_eq, b_eq,
bounds, integrality)` (source line 56) is an external collaborator,
specified as a black box that returns an optimal integer point of
`minimize c @ x, A_eq @ x == b_eq, x >= 0, x integer` or reports
infeasibility. With `c = [-p_1, ..., -p_n, -0.01]` and
`A_eq = [[cost_1, ..., cost_n, 0.01]]` this is exactly: maximise
`objValue` over `feasiblePoints`. For strictly positive costs the
feasible set is finite and the enumeration is exhaustive, so this
model realises the contract; `none` models the solver reporting
infeasibility (in which case scipy leaves `res.x = None`). -/
def linprogModel (cs ps : List ℚ) (budget : ℚ) : Option (List ℕ × ℕ) :=
  (feasiblePoints cs budget).argmax fun q => objValue ps q.1 q.2

/-- The `n+1`-entry raw solution vector `res.x` corresponding to a
solver result: the stock counts followed by the cash units, as rational
values (line 56/68/71 of the source read it this way). -/
def solutionVec (s : List ℕ × ℕ) : List ℚ :=
  s.1.map (fun k : ℕ => (k : ℚ)) ++ [(s.2 : ℚ)]

/-! ### Basic lemmas about the solver model -/

lemma dotProd_nil_left (xs : List ℕ) : dotProd [] xs = 0 := rfl

lemma dotProd_nil_right (cs : List ℚ) : dotProd cs [] = 0 := by
  cases cs <;> rfl

lemma dotProd_cons (c : ℚ) (cs : List ℚ) (k : ℕ) (xs : List ℕ) :
    dotProd (c :: cs) (k :: xs) = c * (k : ℚ) + dotProd cs xs := rfl

lemma dotProd_nonneg {cs : List ℚ} (h : ∀ c ∈ cs, 0 ≤ c) (xs : List ℕ) :
    0 ≤ dotProd cs xs := by
  induction cs generalizing xs with
  | nil => simp [dotProd_nil_left]
  | cons c ct ih =>
      cases xs with
      | nil => simp [dotProd_nil_right]
      | cons k kt =>
          rw [dotProd_cons]
          have h1 : 0 ≤ c := h c (by simp)
          have h2 : 0 ≤ dotProd ct kt := ih (fun a ha => h a (by simp [ha])) kt
          have h3 : 0 ≤ c * (k : ℚ) := mul_nonneg h1 (by positivity)
          linarith

lemma ratFloor_eq_intFloor (q : ℚ) : Rat.floor q = ⌊q⌋ := by
  refine le_antisymm ?_ ?_
  · exact Int.le_floor.mpr (Rat.le_floor.mp le_rfl)
  · exact Rat.le_floor.mpr (Int.floor_le q)

lemma floorToNat_eq {q : ℚ} {n : ℕ} (h1 : (n : ℚ) ≤ q) (h2 : q < n + 1) :
    (Rat.floor q).toNat = n := by
  have hf : Rat.floor q = (n : ℤ) := by
    rw [ratFloor_eq_intFloor]
    rw [Int.floor_eq_iff]
    constructor
    · exact_mod_cast h1
    · push_cast
      exact h2
  rw [hf]
  exact Int.toNat_natCast n

lemma cashFor_eq_some_iff {budget s : ℚ} {m : ℕ} :
    cashFor budget s = some m ↔ (budget - s) * 100 = (m : ℚ) := by
  unfold cashFor
  split_ifs with h
  · obtain ⟨hr, hd⟩ := h
    constructor
    · intro hsome
      have hm : ((budget - s) * 100).num.toNat = m := by
        injection hsome
      have h1 : ((((budget - s) * 100).num : ℤ) : ℚ) = (budget - s) * 100 :=
        (Rat.den_eq_one_iff _).mp hd
      have h2 : (0 : ℤ) ≤ ((budget - s) * 100).num := Rat.num_nonneg.mpr hr
      have h3 : ((((budget - s) * 100).num.toNat : ℕ) : ℚ) =
          ((((budget - s) * 100).num : ℤ) : ℚ) := by
        exact_mod_cast congrArg (fun z : ℤ => (z : ℚ)) (Int.toNat_of_nonneg h2)
      rw [← hm, h3, h1]
    · intro heq
      congr 1
      have hnum : ((budget - s) * 100).num = (m : ℤ) := by
        rw [heq]
        exact Rat.num_natCast m
      rw [hnum]
      exact Int.toNat_natCast m
  · constructor
    · intro hnone
      cases hnone
    · intro heq
      exfalso
      apply h
      constructor
      · rw [heq]
        positivity
      · rw [heq]
        exact Rat.den_natCast m

lemma length_of_mem_stockCandidates {cs : List ℚ} :
    ∀ {budget : ℚ} {xs : List ℕ}, xs ∈ stockCandidates cs budget →
      xs.length = cs.length := by
  induction cs with
  | nil =>
      intro budget xs h
      simp only [stockCandidates, List.mem_singleton] at h
      subst h
      rfl
  | cons c ct ih =>
      intro budget xs h
      simp only [stockCandidates, List.mem_flatMap, List.mem_map] at h
      obtain ⟨k, _, kt, hkt, rfl⟩ := h
      simp [ih hkt]

lemma mem_stockCandidates {cs : List ℚ} :
    ∀ {budget : ℚ} {xs : List ℕ}, (∀ c ∈ cs, 0 < c) → xs.length = cs.length →
      dotProd cs xs ≤ budget → xs ∈ stockCandidates cs budget := by
  induction cs with
  | nil =>
      intro budget xs _ hlen _
      rw [List.length_nil, List.length_eq_zero] at hlen
      subst hlen
      simp [stockCandidates]
  | cons c ct ih =>
      intro budget xs hpos hlen hle
      cases xs with
      | nil => simp at hlen
      | cons k kt =>
          have hc : 0 < c := hpos c (by simp)
          have hct : ∀ a ∈ ct, 0 < a := fun a ha => hpos a (by simp [ha])
          rw [dotProd_cons] at hle
          have htail : 0 ≤ dotProd ct kt := dotProd_nonneg (fun a ha => (hct a ha).le) kt
          have hk : (k : ℚ) * c ≤ budget := by
            have := mul_comm c (k : ℚ)
            linarith
          have hkd : (k : ℚ) ≤ budget / c := (le_div_iff₀ hc).mpr hk
          have hkfl : k ≤ (Rat.floor (budget / c)).toNat := by
            have h1 : (k : ℤ) ≤ Rat.floor (budget / c) :=
              Rat.le_floor.mpr (by exact_mod_cast hkd)
            omega
          simp only [stockCandidates, List.mem_flatMap, List.mem_map]
          refine ⟨k, List.mem_range.mpr (by omega), kt, ?_, rfl⟩
          apply ih hct (by simpa using hlen)
          have := mul_comm c (k : ℚ)
          linarith

lemma mem_feasiblePoints {cs : List ℚ} {budget : ℚ} {x : List ℕ} {m : ℕ} :
    (x, m) ∈ feasiblePoints cs budget ↔
      x ∈ stockCandidates cs budget ∧ cashFor budget (dotProd cs x) = some m := by
  unfold feasiblePoints
  rw [List.mem_filterMap]
  constructor
  · rintro ⟨xs, hxs, hmap⟩
    rw [Option.map_eq_some'] at hmap
    obtain ⟨m', hm', heq⟩ := hmap
    obtain ⟨rfl, rfl⟩ := Prod.mk.injEq .. ▸ And.intro (congrArg Prod.fst heq) (congrArg Prod.snd heq)
    exact ⟨hxs, hm'⟩
  · rintro ⟨h1, h2⟩
    exact ⟨x, h1, by rw [h2]; rfl⟩

lemma linprogModel_mem {cs ps : List ℚ} {budget : ℚ} {x : List ℕ} {m : ℕ}
    (h : linprogModel cs ps budget = some (x, m)) :
    (x, m) ∈ feasiblePoints cs budget :=
  List.argmax_mem (Option.mem_def.mpr h)

lemma linprogModel_le {cs ps : List ℚ} {budget : ℚ} {x : List ℕ} {m : ℕ}
    {y : List ℕ} {my : ℕ}
    (h : linprogModel cs ps budget = some (x, m))
    (hy : (y, my) ∈ feasiblePoints cs budget) :
    objValue ps y my ≤ objValue ps x m :=
  List.le_of_mem_argmax hy (Option.mem_def.mpr h)

lemma feasible_of_budget_eq {cs : List ℚ} {budget : ℚ} {y : List ℕ} {my : ℕ}
    (hpos : ∀ c ∈ cs, 0 < c) (hlen : y.length = cs.length)
    (heq : dotProd cs y + (my : ℚ) * (1 / 100) = budget) :
    (y, my) ∈ feasiblePoints cs budget := by
  have hmy : (0 : ℚ) ≤ (my : ℚ) * (1 / 100) := by positivity
  refine mem_feasiblePoints.mpr ⟨mem_stockCandidates hpos hlen (by linarith), ?_⟩
  apply cashFor_eq_some_iff.mpr
  have : budget - dotProd cs y = (my : ℚ) * (1 / 100) := by linarith
  rw [this]
  ring

lemma linprogModel_budget_exact {cs ps : List ℚ} {budget : ℚ} {x : List ℕ} {m : ℕ}
    (h : linprogModel cs ps budget = some (x, m)) :
    dotProd cs x + (m : ℚ) * (1 / 100) = budget := by
  have hmem := (mem_feasiblePoints.mp (linprogModel_mem h)).2
  have := cashFor_eq_some_iff.mp hmem
  linarith

lemma linprogModel_neg_budget {cs ps : List ℚ} {budget : ℚ}
    (hneg : budget < 0) (hc : ∀ c ∈ cs, 0 ≤ c) :
    linprogModel cs ps budget = none := by
  unfold linprogModel
  rw [List.argmax_eq_none]
  unfold feasiblePoints
  rw [List.filterMap_eq_nil_iff]
  intro xs _
  have hdot : 0 ≤ dotProd cs xs := dotProd_nonneg hc xs
  have hnone : cashFor budget (dotProd cs xs) = none := by
    unfold cashFor
    rw [if_neg]
    rintro ⟨h0, -⟩
    nlinarith
  rw [hnone]
  rfl

/-! ### The reporting phase (source lines 58-77)

The script does not inspect `res.status`: it reads `res.x` and `res.fun`
directly. When the solve is infeasible scipy leaves `res.x = None`, so
`zip(houseguests, res.x, ...)` on line 68 raises a `TypeError`; the two
divisions `(-projection - cost) / cost` (line 61),
`(-res.fun - b_eq[0]) / b_eq[0]` (line 75) and
`evictions / len(houseguests)` (line 77) raise `ZeroDivisionError` when
their divisor is zero. Both kinds of uncaught exception abort the run
with a non-zero exit status after the already-executed prints. -/

/-- The unhandled Python exceptions the script can die with. -/
inductive PyError where
  | zeroDivision
  | noneNotIterable
deriving DecidableEq

/-- One printed item of the report, in print order. `table` is the
verbose tabulate block (line 62), `netWorth` line 64, `adviceHeader`
lines 66-67, `advice` line 70, `holdings` line 72, `adviceFooter`
line 73, `expected` line 75 and `eviction` line 77. -/
inductive Out where
  | table (rows : List (String × ℚ × List ℚ × ℚ × ℚ))
  | netWorth (q : ℚ)
  | adviceHeader
  | advice (name : String) (units : ℕ) (basis target : ℚ)
  | holdings (units dollars : ℚ)
  | adviceFooter
  | expected (ev pct : ℚ)
  | eviction (p : ℚ)
deriving DecidableEq

/-- The whole YAML input document: `net_worth`, `houseguests` and the
`evictions` count (source lines 36-42, 77). -/
structure StockwatchInput where
  net_worth : ℚ
  houseguests : List Houseguest
  evictions : ℚ
deriving DecidableEq

/-- The verbose table rows of lines 59-61: per houseguest
`[name, cost, projections, -projection, (-projection - cost) / cost]`
with `projection = -mean(projections)`, built row by row; a zero cost
makes the division raise `ZeroDivisionError` at that row. -/
def verboseRows : List Houseguest → Except PyError (List (String × ℚ × List ℚ × ℚ × ℚ))
  | [] => Except.ok []
  | h :: t =>
      if h.cost = 0 then Except.error PyError.zeroDivision
      else
        match verboseRows t with
        | Except.error e => Except.error e
        | Except.ok rows =>
            Except.ok ((h.name, h.cost, h.projections, mean h.projections,
              (mean h.projections - h.cost) / h.cost) :: rows)

/-- The advice loop of lines 68-70: `zip(houseguests, res.x, ...)`
truncates to the houseguest entries; a line is printed when
`stock > 0 or verbose`, showing `round(stock)`, `round(stock) * cost`
and `round(stock) * -projection` (`-projection` is the mean). -/
def adviceLines (hgs : List Houseguest) (xs : List ℕ) (v : Bool) : List Out :=
  (List.zip hgs xs).filterMap fun p =>
    if 0 < p.2 ∨ v = true then
      some (Out.advice p.1.name p.2 ((p.2 : ℚ) * p.1.cost) ((p.2 : ℚ) * mean p.1.projections))
    else none

/-- Lines 71-72: the holdings line is printed when
`res.x[-1] > 0 or verbose`, showing `res.x[-1]` and `res.x[-1] / 100`. -/
def holdingsLines (cash : ℕ) (v : Bool) : List Out :=
  if 0 < cash ∨ v = true then [Out.holdings (cash : ℚ) ((cash : ℚ) / 100)] else []

/-- Lines 64-77 of the source, run after the solve: print the net
worth, the advice block from `res.x`, the expected value
`-res.fun` with the figure `(-res.fun - b_eq[0]) / b_eq[0]`, and the
eviction ratio. An infeasible solve (`res.x = None`) dies on line 68
with a `TypeError`; a zero net worth dies on line 75 and an empty
houseguest list on line 77, each with a `ZeroDivisionError`. -/
def reportPhase (inp : StockwatchInput) (v : Bool) (res : Option (List ℕ × ℕ)) :
    List Out × Option PyError :=
  match res with
  | none => ([Out.netWorth inp.net_worth, Out.adviceHeader], some PyError.noneNotIterable)
  | some (x, cash) =>
      let adv := [Out.netWorth inp.net_worth, Out.adviceHeader] ++
        adviceLines inp.houseguests x v ++ holdingsLines cash v ++ [Out.adviceFooter]
      if inp.net_worth = 0 then (adv, some PyError.zeroDivision)
      else
        let ev := objValue (projsOf inp.houseguests) x cash
        let post := adv ++ [Out.expected ev ((ev - inp.net_worth) / inp.net_worth)]
        if inp.houseguests.length = 0 then (post, some PyError.zeroDivision)
        else
          (post ++ [Out.eviction (inp.evictions / (inp.houseguests.length : ℚ))], none)

/-- Lines 36-77 of the source: build the ILP data from the input, call
the solver (line 56), print the verbose table when requested (lines
58-62, before any use of `res`), then run the reporting phase. The
printed items are returned together with the uncaught exception, if
any, that aborts the run. -/
def mainModel (inp : StockwatchInput) (v : Bool) : List Out × Option PyError :=
  let res := linprogModel (costsOf inp.houseguests) (projsOf inp.houseguests) inp.net_worth
  match (if v then Except.map (fun rows => [Out.table rows]) (verboseRows inp.houseguests)
         else Except.ok []) with
  | Except.error e => ([], some e)
  | Except.ok tbl =>
      let r := reportPhase inp v res
      (tbl ++ r.1, r.2)

/-! ### Claim theorems -/

lemma buildLoop_eq (hgs : List Houseguest) (p : Ilp) :
    buildLoop hgs p =
      { c := p.c ++ hgs.map (fun h => -(mean h.projections))
        row := p.row ++ hgs.map (fun h => h.cost)
        b := p.b
        bounds := p.bounds ++ List.replicate hgs.length ((0 : ℚ), none)
        integrality := p.integrality ++ List.replicate hgs.length 1 } := by
  induction hgs generalizing p with
  | nil => simp [buildLoop]
  | cons h t ih =>
      rw [buildLoop, ih]
      simp [List.replicate_succ]

/-- Claim C1: for every asset list and budget, the constructed ILP has
objective `c = [-mean(projections_1), ..., -mean(projections_n), -0.01]`,
a single equality row `A_eq = [cost_1, ..., cost_n, 0.01]` with target
`b_eq = [budget]`, bound `(0, None)` on each of the `n+1` variables,
integrality flag `1` on every variable, and the cash unit as the last
element of both the objective and the equality row. -/
theorem ilp_construction (nw : ℚ) (hgs : List Houseguest) :
    (buildIlp nw hgs).c = hgs.map (fun h => -(mean h.projections)) ++ [-(1 / 100)] ∧
    (buildIlp nw hgs).row = hgs.map (fun h => h.cost) ++ [1 / 100] ∧
    (buildIlp nw hgs).b = nw ∧
    (buildIlp nw hgs).bounds = List.replicate (hgs.length + 1) ((0 : ℚ), none) ∧
    (buildIlp nw hgs).integrality = List.replicate (hgs.length + 1) 1 ∧
    (buildIlp nw hgs).c.getLast? = some (-(1 / 100)) ∧
    (buildIlp nw hgs).row.getLast? = some (1 / 100) := by
  unfold buildIlp
  rw [buildLoop_eq]
  refine ⟨by simp, by simp, rfl, ?_, ?_, ?_, ?_⟩
  · simp [List.replicate_succ']
  · simp [List.replicate_succ']
  · simp [List.getLast?_concat]
  · simp [List.getLast?_concat]

lemma stockCandidates_nil (budget : ℚ) : stockCandidates [] budget = [[]] := rfl

lemma stockCandidates_cons (c : ℚ) (rest : List ℚ) (budget : ℚ) {n : ℕ}
    (h1 : (n : ℚ) ≤ budget / c) (h2 : budget / c < n + 1) :
    stockCandidates (c :: rest) budget =
      (List.range (n + 1)).flatMap fun k =>
        (stockCandidates rest (budget - (k : ℚ) * c)).map fun xs => k :: xs := by
  rw [stockCandidates, floorToNat_eq h1 h2]

lemma cashFor_eq_none {budget s : ℚ}
    (h : ∀ n : ℕ, (budget - s) * 100 ≠ (n : ℚ)) : cashFor budget s = none := by
  unfold cashFor
  rw [if_neg]
  rintro ⟨hr, hd⟩
  have h1 : ((((budget - s) * 100).num : ℤ) : ℚ) = (budget - s) * 100 :=
    (Rat.den_eq_one_iff _).mp hd
  have h2 : (0 : ℤ) ≤ ((budget - s) * 100).num := Rat.num_nonneg.mpr hr
  apply h ((budget - s) * 100).num.toNat
  rw [← h1]
  exact_mod_cast congrArg (fun z : ℤ => (z : ℚ)) (Int.toNat_of_nonneg h2) |>.symm

lemma costsOf_pos {hgs : List Houseguest} (h : ∀ g ∈ hgs, 0 < g.cost) :
    ∀ c ∈ costsOf hgs, 0 < c := by
  intro c hc
  simp only [costsOf, List.mem_map] at hc
  obtain ⟨g, hg, rfl⟩ := hc
  exact h g hg

lemma length_costsOf (hgs : List Houseguest) : (costsOf hgs).length = hgs.length :=
  List.length_map hgs _

/-- Claim C2: when the solver model returns an allocation, no other
non-negative-integer stock vector of the right length that satisfies
the budget equality (spend plus 0.01 per cash unit equal to the budget)
achieves a strictly greater total expected value. -/
theorem solve_optimal (hgs : List Houseguest) (nw : ℚ)
    (hpos : ∀ g ∈ hgs, 0 < g.cost) (x : List ℕ) (cash : ℕ)
    (hres : linprogModel (costsOf hgs) (projsOf hgs) nw = some (x, cash))
    (y : List ℕ) (cy : ℕ) (hylen : y.length = hgs.length)
    (hyeq : dotProd (costsOf hgs) y + (cy : ℚ) * (1 / 100) = nw) :
    objValue (projsOf hgs) y cy ≤ objValue (projsOf hgs) x cash := by
  have hy : (y, cy) ∈ feasiblePoints (costsOf hgs) nw :=
    feasible_of_budget_eq (costsOf_pos hpos) (by rw [hylen, length_costsOf]) hyeq
  exact linprogModel_le hres hy

/-- Claim C3: every allocation returned by the solver model satisfies
the budget equality exactly: the spend over the cost column plus `0.01`
per cash unit equals the budget, as exact rationals. -/
theorem solve_budget_exact (hgs : List Houseguest) (nw : ℚ) (x : List ℕ) (cash : ℕ)
    (hres : linprogModel (costsOf hgs) (projsOf hgs) nw = some (x, cash)) :
    dotProd (costsOf hgs) x + (cash : ℚ) * (1 / 100) = nw :=
  linprogModel_budget_exact hres

/-- Claim C4: every entry of the returned raw solution vector — the
`n` stock quantities and the final cash amount — is a non-negative
integer (denominator 1 as a rational), and there is one stock entry
per houseguest. -/
theorem solve_nonneg_integers (hgs : List Houseguest) (nw : ℚ) (s : List ℕ × ℕ)
    (hres : linprogModel (costsOf hgs) (projsOf hgs) nw = some s) :
    s.1.length = hgs.length ∧ ∀ q ∈ solutionVec s, 0 ≤ q ∧ q.den = 1 := by
  obtain ⟨x, cash⟩ := s
  have hmem := (mem_feasiblePoints.mp (linprogModel_mem hres)).1
  refine ⟨by rw [length_of_mem_stockCandidates hmem, length_costsOf], ?_⟩
  intro q hq
  rw [solutionVec, List.mem_append] at hq
  rcases hq with hq | hq
  · obtain ⟨k, -, rfl⟩ := List.mem_map.mp hq
    exact ⟨by positivity, Rat.den_natCast k⟩
  · rw [List.mem_singleton] at hq
    subst hq
    exact ⟨by positivity, Rat.den_natCast cash⟩

/-! ### Concrete scenarios -/

/-- Scenario A of the spec: two assets, costs 5 and 10, single
projections 6 and 8, budget 10. -/
def hgsA : List Houseguest := [⟨"a", 5, [6]⟩, ⟨"b", 10, [8]⟩]

/-- Scenario A as a full input document. -/
def inputA : StockwatchInput := { net_worth := 10, houseguests := hgsA, evictions := 1 }

lemma costsOf_hgsA : costsOf hgsA = [5, 10] := by simp [costsOf, hgsA]

lemma projsOf_hgsA : projsOf hgsA = [6, 8] := by
  simp [projsOf, hgsA, mean]

lemma candidatesA : stockCandidates [5, 10] 10 = [[0, 0], [0, 1], [1, 0], [2, 0]] := by
  rw [stockCandidates_cons 5 [10] 10 (n := 2) (by norm_num) (by norm_num)]
  rw [show List.range (2 + 1) = [0, 1, 2] from rfl]
  simp only [List.flatMap_cons, List.flatMap_nil]
  norm_num
  rw [stockCandidates_cons 10 [] 10 (n := 1) (by norm_num) (by norm_num),
      stockCandidates_cons 10 [] 5 (n := 0) (by norm_num) (by norm_num),
      stockCandidates_cons 10 [] 0 (n := 0) (by norm_num) (by norm_num)]
  simp [stockCandidates_nil, List.flatMap_cons]
  decide

lemma feasibleA :
    feasiblePoints [5, 10] 10 = [([0, 0], 1000), ([0, 1], 0), ([1, 0], 500), ([2, 0], 0)] := by
  have e1 : cashFor 10 (dotProd [5, 10] [0, 0]) = some 1000 :=
    cashFor_eq_some_iff.mpr (by norm_num [dotProd])
  have e2 : cashFor 10 (dotProd [5, 10] [0, 1]) = some 0 :=
    cashFor_eq_some_iff.mpr (by norm_num [dotProd])
  have e3 : cashFor 10 (dotProd [5, 10] [1, 0]) = some 500 :=
    cashFor_eq_some_iff.mpr (by norm_num [dotProd])
  have e4 : cashFor 10 (dotProd [5, 10] [2, 0]) = some 0 :=
    cashFor_eq_some_iff.mpr (by norm_num [dotProd])
  unfold feasiblePoints
  rw [candidatesA]
  simp [List.filterMap_cons, e1, e2, e3, e4]

lemma linprogA : linprogModel [5, 10] [6, 8] 10 = some ([2, 0], 0) := by
  unfold linprogModel
  rw [feasibleA, List.argmax]
  simp only [List.foldl_cons, List.foldl_nil, List.argAux]
  norm_num [objValue, dotProd]

lemma hgsA_pos : ∀ g ∈ hgsA, 0 < g.cost := by
  intro g hg
  simp only [hgsA, List.mem_cons, List.mem_singleton, List.not_mem_nil, or_false] at hg
  rcases hg with rfl | rfl <;> norm_num

lemma linprogA_hgs : linprogModel (costsOf hgsA) (projsOf hgsA) 10 = some ([2, 0], 0) := by
  rw [costsOf_hgsA, projsOf_hgsA]
  exact linprogA

/-- Claim C7: on scenario A (assets with costs 5 and 10, projections
[6] and [8], budget 10) the solve returns 2 units of the first asset,
0 of the second, 0 cash units, and the total expected value is 12. -/
theorem scenarioA_solution :
    linprogModel (costsOf hgsA) (projsOf hgsA) 10 = some ([2, 0], 0) ∧
    objValue (projsOf hgsA) [2, 0] 0 = 12 := by
  refine ⟨linprogA_hgs, ?_⟩
  rw [projsOf_hgsA]
  norm_num [objValue, dotProd]

/-- Witness for C2 at scenario A: buying one unit of the second asset
(the only other spend-exact choice besides holding cash) is no better
than the returned allocation. -/
theorem solve_optimal_witness :
    objValue (projsOf hgsA) [0, 1] 0 ≤ objValue (projsOf hgsA) [2, 0] 0 :=
  solve_optimal hgsA 10 hgsA_pos [2, 0] 0 linprogA_hgs [0, 1] 0 (by simp [hgsA])
    (by rw [costsOf_hgsA]; norm_num [dotProd])

/-- Witness for C3 at scenario A: the returned allocation spends the
budget exactly. -/
theorem solve_budget_exact_witness :
    dotProd (costsOf hgsA) [2, 0] + ((0 : ℕ) : ℚ) * (1 / 100) = 10 :=
  solve_budget_exact hgsA 10 [2, 0] 0 linprogA_hgs

/-- Witness for C4 at scenario A: the first stock entry of the returned
solution vector is a non-negative integer. -/
theorem solve_nonneg_integers_witness :
    0 ≤ ((2 : ℕ) : ℚ) ∧ ((2 : ℕ) : ℚ).den = 1 :=
  (solve_nonneg_integers hgsA 10 ([2, 0], 0) linprogA_hgs).2 ((2 : ℕ) : ℚ)
    (by simp [solutionVec])

lemma reportA : reportPhase inputA false (some ([2, 0], 0)) =
    ([Out.netWorth 10, Out.adviceHeader, Out.advice "a" 2 10 12, Out.adviceFooter,
      Out.expected 12 (1 / 5), Out.eviction (1 / 2)], none) := by
  unfold reportPhase
  norm_num [inputA, hgsA, adviceLines, holdingsLines, objValue, dotProd, projsOf, mean,
    List.filterMap_cons, List.filterMap_nil]

lemma mainA : mainModel inputA false =
    ([Out.netWorth 10, Out.adviceHeader, Out.advice "a" 2 10 12, Out.adviceFooter,
      Out.expected 12 (1 / 5), Out.eviction (1 / 2)], none) := by
  have hres : linprogModel (costsOf inputA.houseguests) (projsOf inputA.houseguests)
      inputA.net_worth = some ([2, 0], 0) := linprogA_hgs
  simp only [mainModel, hres, reportA]
  rfl

lemma not_expected_mem_adviceLines {hgs : List Houseguest} {xs : List ℕ} {v : Bool}
    {ev pct : ℚ} : Out.expected ev pct ∉ adviceLines hgs xs v := by
  intro h
  rw [adviceLines, List.mem_filterMap] at h
  obtain ⟨p, -, hp⟩ := h
  by_cases hc : 0 < p.2 ∨ v = true
  · rw [if_pos hc] at hp
    exact Out.noConfusion (Option.some.inj hp)
  · rw [if_neg hc] at hp
    exact Option.noConfusion hp

lemma not_expected_mem_holdingsLines {cash : ℕ} {v : Bool} {ev pct : ℚ} :
    Out.expected ev pct ∉ holdingsLines cash v := by
  unfold holdingsLines
  split_ifs <;> simp

lemma reportPhase_expected {inp : StockwatchInput} {v : Bool}
    {res : Option (List ℕ × ℕ)} {ev pct : ℚ}
    (h : Out.expected ev pct ∈ (reportPhase inp v res).1) :
    pct = (ev - inp.net_worth) / inp.net_worth := by
  unfold reportPhase at h
  rcases res with - | ⟨x, cash⟩
  · simp at h
  · simp only at h
    split_ifs at h with h0 hlen
    · simp [not_expected_mem_adviceLines, not_expected_mem_holdingsLines] at h
    · simp [not_expected_mem_adviceLines, not_expected_mem_holdingsLines] at h
      obtain ⟨rfl, rfl⟩ := h
      rfl
    · simp [not_expected_mem_adviceLines, not_expected_mem_holdingsLines] at h
      obtain ⟨rfl, rfl⟩ := h
      rfl

/-- Claim C9 (amended): whenever the report prints the expected-value
line, the figure printed next to the `%` sign is the raw ratio
`(expected_value - budget) / budget`, not multiplied by 100. -/
theorem printed_gain_is_raw_ratio (inp : StockwatchInput) (v : Bool) (ev pct : ℚ)
    (h : Out.expected ev pct ∈ (mainModel inp v).1) :
    pct = (ev - inp.net_worth) / inp.net_worth := by
  unfold mainModel at h
  cases v with
  | false =>
      simp only [Bool.false_eq_true, if_false, List.nil_append] at h
      exact reportPhase_expected h
  | true =>
      simp only [if_true] at h
      rcases hv : verboseRows inp.houseguests with e | rows
      · rw [hv] at h
        simp [Except.map] at h
      · rw [hv] at h
        simp only [Except.map] at h
        rcases List.mem_append.mp h with h | h
        · simp at h
        · exact reportPhase_expected h

/-- Counterexample for C9 as stated: on scenario A the program prints
the figure `1/5` next to the `%` sign, but the percentage gain over
the budget is `20`. -/
theorem printed_gain_not_percentage :
    (mainModel inputA false).1 = [Out.netWorth 10, Out.adviceHeader, Out.advice "a" 2 10 12,
      Out.adviceFooter, Out.expected 12 (1 / 5), Out.eviction (1 / 2)] ∧
    ((12 : ℚ) - 10) / 10 * 100 = 20 ∧ ((1 : ℚ) / 5) ≠ 20 := by
  refine ⟨by rw [mainA], by norm_num, by norm_num⟩

/-- Witness for the amended C9 at scenario A. -/
theorem printed_gain_is_raw_ratio_witness :
    (1 / 5 : ℚ) = ((12 : ℚ) - inputA.net_worth) / inputA.net_worth :=
  printed_gain_is_raw_ratio inputA false 12 (1 / 5) (by rw [mainA]; simp)

lemma mainModel_neg_budget (inp : StockwatchInput) (hneg : inp.net_worth < 0)
    (hc : ∀ g ∈ inp.houseguests, 0 ≤ g.cost) :
    mainModel inp false =
      ([Out.netWorth inp.net_worth, Out.adviceHeader], some PyError.noneNotIterable) := by
  have hres : linprogModel (costsOf inp.houseguests) (projsOf inp.houseguests)
      inp.net_worth = none := by
    apply linprogModel_neg_budget hneg
    intro c hmem
    simp only [costsOf, List.mem_map] at hmem
    obtain ⟨g, hg, rfl⟩ := hmem
    exact hc g hg
  simp only [mainModel, hres]
  rfl

/-- Claim C5 (amended): the script performs no input validation and
has no `InvalidInput` signal at all; invalid inputs reach the solver
untouched. In particular, on any input with a negative budget and
non-negatively priced assets the solver is invoked, reports the
problem infeasible, and the program prints the net-worth and
advice-header lines and then dies with a `TypeError` (reading the
absent solution vector), not with an `InvalidInput` rejection. -/
theorem invalid_input_not_rejected (inp : StockwatchInput)
    (hneg : inp.net_worth < 0) (hc : ∀ g ∈ inp.houseguests, 0 ≤ g.cost) :
    mainModel inp false =
      ([Out.netWorth inp.net_worth, Out.adviceHeader], some PyError.noneNotIterable) :=
  mainModel_neg_budget inp hneg hc

/-- An input that is invalid in the spec's sense: negative budget. -/
def negInput : StockwatchInput :=
  { net_worth := -2, houseguests := [⟨"b", 3, [1]⟩], evictions := 1 }

/-- Counterexample for C5 as stated: on a negative-budget input the
program does not reject before solving and signals no `InvalidInput`;
it emits the net-worth and advice-header report lines (so execution
reached the post-solve code) and aborts with a `TypeError`. -/
theorem invalid_input_reaches_solver :
    mainModel negInput false =
      ([Out.netWorth (-2), Out.adviceHeader], some PyError.noneNotIterable) := by
  have h := mainModel_neg_budget negInput (by norm_num [negInput]) ?_
  · simpa [negInput] using h
  · intro g hg
    simp only [negInput, List.mem_singleton] at hg
    subst hg
    norm_num

/-- A second invalid input, used to witness the amended C5. -/
def negInput2 : StockwatchInput :=
  { net_worth := -1, houseguests := [⟨"a", 5, [6]⟩], evictions := 0 }

/-- Witness for the amended C5 at a concrete invalid input. -/
theorem invalid_input_not_rejected_witness :
    mainModel negInput2 false =
      ([Out.netWorth negInput2.net_worth, Out.adviceHeader], some PyError.noneNotIterable) :=
  invalid_input_not_rejected negInput2 (by norm_num [negInput2])
    (by
      intro g hg
      simp only [negInput2, List.mem_singleton] at hg
      subst hg
      norm_num)

/-- The spec's infeasibility example: budget `$10.003` has a sub-cent
remainder no stock/cash combination can match. -/
def fracInput : StockwatchInput :=
  { net_worth := 10003 / 1000, houseguests := [⟨"a", 5, [6]⟩], evictions := 0 }

lemma candidatesFrac : stockCandidates [5] (10003 / 1000) = [[0], [1], [2]] := by
  rw [stockCandidates_cons 5 [] (10003 / 1000) (n := 2) (by norm_num) (by norm_num)]
  simp only [stockCandidates_nil, List.map_cons, List.map_nil]
  decide

lemma linprogFrac (ps : List ℚ) : linprogModel [5] ps (10003 / 1000) = none := by
  have e0 : cashFor (10003 / 1000) (dotProd [5] [0]) = none := by
    apply cashFor_eq_none
    intro n hn
    norm_num [dotProd] at hn
    rw [div_eq_iff (by norm_num : (10 : ℚ) ≠ 0)] at hn
    have : (10003 : ℕ) = n * 10 := by exact_mod_cast hn
    omega
  have e1 : cashFor (10003 / 1000) (dotProd [5] [1]) = none := by
    apply cashFor_eq_none
    intro n hn
    norm_num [dotProd] at hn
    rw [div_eq_iff (by norm_num : (10 : ℚ) ≠ 0)] at hn
    have : (5003 : ℕ) = n * 10 := by exact_mod_cast hn
    omega
  have e2 : cashFor (10003 / 1000) (dotProd [5] [2]) = none := by
    apply cashFor_eq_none
    intro n hn
    norm_num [dotProd] at hn
    rw [div_eq_iff (by norm_num : (10 : ℚ) ≠ 0)] at hn
    have : (3 : ℕ) = n * 10 := by exact_mod_cast hn
    omega
  unfold linprogModel
  rw [List.argmax_eq_none]
  unfold feasiblePoints
  rw [candidatesFrac]
  simp [List.filterMap_cons, e0, e1, e2]

/-- Claim C6: on the budget `$10.003` (sub-cent remainder) the solver
model reports infeasibility, and the program — rather than signalling
a clean `Infeasible` error with no other output — prints the net-worth
and advice-header lines and then aborts with a `TypeError` (scipy left
`res.x = None` and line 68 iterates over it). The uncaught exception
does exit with non-zero status, but partial output has been produced
and the error is not an `Infeasible` signal. -/
theorem infeasible_budget_crash :
    linprogModel (costsOf fracInput.houseguests) (projsOf fracInput.houseguests)
      fracInput.net_worth = none ∧
    mainModel fracInput false =
      ([Out.netWorth (10003 / 1000), Out.adviceHeader], some PyError.noneNotIterable) := by
  have hcs : costsOf fracInput.houseguests = [5] := by simp [costsOf, fracInput]
  have hres : linprogModel (costsOf fracInput.houseguests) (projsOf fracInput.houseguests)
      fracInput.net_worth = none := by
    rw [hcs]
    exact linprogFrac _
  refine ⟨hres, ?_⟩
  simp only [mainModel, hres]
  rfl

/-- Scenario C of the spec: zero budget. -/
def zeroInput : StockwatchInput :=
  { net_worth := 0, houseguests := [⟨"a", 5, [6]⟩], evictions := 0 }

lemma candidatesZero : stockCandidates [5] 0 = [[0]] := by
  rw [stockCandidates_cons 5 [] 0 (n := 0) (by norm_num) (by norm_num)]
  simp only [stockCandidates_nil, List.map_cons, List.map_nil]
  decide

lemma linprogZero (ps : List ℚ) : linprogModel [5] ps 0 = some ([0], 0) := by
  have e : cashFor 0 (dotProd [5] [0]) = some 0 :=
    cashFor_eq_some_iff.mpr (by norm_num [dotProd])
  unfold linprogModel
  unfold feasiblePoints
  rw [candidatesZero]
  simp [List.filterMap_cons, e]

/-- Claim C8: on a zero budget the solve itself is valid — zero units
of every asset, zero cash units, expected value 0 — but the program
does not report it without error: line 75 divides by the zero budget
when computing the gain figure, so the run aborts with a
`ZeroDivisionError` right after the advice block. -/
theorem zero_budget_crash :
    linprogModel (costsOf zeroInput.houseguests) (projsOf zeroInput.houseguests)
      zeroInput.net_worth = some ([0], 0) ∧
    objValue (projsOf zeroInput.houseguests) [0] 0 = 0 ∧
    mainModel zeroInput false =
      ([Out.netWorth 0, Out.adviceHeader, Out.adviceFooter], some PyError.zeroDivision) := by
  have hcs : costsOf zeroInput.houseguests = [5] := by simp [costsOf, zeroInput]
  have hres : linprogModel (costsOf zeroInput.houseguests) (projsOf zeroInput.houseguests)
      zeroInput.net_worth = some ([0], 0) := by
    rw [hcs]
    exact linprogZero _
  refine ⟨hres, by norm_num [objValue, dotProd, projsOf, zeroInput, mean], ?_⟩
  simp only [mainModel, hres]
  unfold reportPhase
  norm_num [zeroInput, adviceLines, holdingsLines, List.filterMap_cons]

/-- An input holding a zero-cost asset, which the program does not
reject. -/
def zeroCostInput : StockwatchInput :=
  { net_worth := 1, houseguests := [⟨"z", 0, [5]⟩], evictions := 0 }

/-- Claim C10: the verbose table computes each expected-change figure
as `(mean(projections) - cost) / cost` with no guard on the divisor,
so on an input holding a cost-0 asset the verbose run dies in a
`ZeroDivisionError` before printing anything. -/
theorem verbose_division_unguarded :
    mainModel zeroCostInput true = ([], some PyError.zeroDivision) ∧
    (∀ hgs : List Houseguest, (∀ g ∈ hgs, g.cost ≠ 0) →
      verboseRows hgs = Except.ok (hgs.map fun g =>
        (g.name, g.cost, g.projections, mean g.projections,
          (mean g.projections - g.cost) / g.cost))) := by
  constructor
  · simp only [mainModel]
    norm_num [verboseRows, zeroCostInput, Except.map]
  · intro hgs
    induction hgs with
    | nil => intro _; simp [verboseRows]
    | cons g t ih =>
        intro h
        have hg : g.cost ≠ 0 := h g (by simp)
        rw [verboseRows, if_neg hg, ih (fun a ha => h a (by simp [ha]))]
        simp

/-- Witness for C10's universal part at a concrete one-asset list. -/
theorem verbose_division_unguarded_witness :
    verboseRows [⟨"w", 2, [3]⟩] = Except.ok
      [("w", 2, [3], mean [3], (mean [3] - 2) / 2)] := by
  have h := verbose_division_unguarded.2 [⟨"w", 2, [3]⟩] ?_
  · simpa using h
  · intro g hg
    simp only [List.mem_singleton] at hg
    subst hg
    norm_num
